import Mathlib

/-!
Verification of the valutatrade_hub portfolio ledger and rate-cache core
against its specification.  The definitions below shallowly embed the
relevant Python source files: `core/models.py` (Wallet, Portfolio),
`core/usecases.py` (show_portfolio, buy_currency, sell_currency),
`cli/interface.py` (is_rate_fresh, the rate-source stub, get_exchange_rate)
and `core/currencies.py` (the currency-code check in `Currency.__init__`).
Monetary amounts and rates are embedded as exact rationals (the spec's
"non-negative real number"); timestamps are integer microsecond ticks,
the resolution of Python `datetime`.  Fallible code returns `Except`;
a raised Python exception is an `Except.error` propagating to the caller.
-/

deriving instance DecidableEq for Except

/-- Error kinds raised by the embedded code.  `invalidAmount` models the
`ValueError` raised by `Wallet.deposit`/`Wallet.withdraw` on a non-positive
amount, `negativeBalance` the `ValueError` raised by
`Wallet._validate_balance`, `insufficientFunds` the
`InsufficientFundsError(available, required, code)` of `core/exceptions.py`,
`duplicateCurrency` the `ValueError` raised by `Portfolio.add_currency`,
and `attributeNone` the `AttributeError` Python raises when a method is
called on `None` (structurally unreachable in the trade paths). -/
inductive Err where
  | invalidAmount
  | negativeBalance
  | insufficientFunds (available required : ℚ) (code : String)
  | duplicateCurrency (code : String)
  | attributeNone
deriving DecidableEq

/-- Embeds the `Wallet` class of `core/models.py`: a single-currency
balance.  The Python `_balance` attribute is a float; it is embedded as an
exact rational. -/
structure WalletM where
  currencyCode : String
  balance : ℚ
deriving DecidableEq

/-- Embeds `Wallet._validate_balance`: a negative value is rejected with a
`ValueError` (the `isinstance` check has no counterpart, every `ℚ` is a
number). -/
def validateBalance (amount : ℚ) : Except Err ℚ :=
  if amount < 0 then .error .negativeBalance else .ok amount

/-- Embeds `Wallet.deposit`: rejects `amount ≤ 0` with a `ValueError`,
otherwise adds to the balance through the balance setter (which
re-validates via `_validate_balance`). -/
def WalletM.deposit (w : WalletM) (amount : ℚ) : Except Err WalletM :=
  if amount ≤ 0 then .error .invalidAmount
  else
    match validateBalance (w.balance + amount) with
    | .error e => .error e
    | .ok b => .ok { w with balance := b }

/-- Embeds `Wallet.withdraw`: rejects `amount ≤ 0` with a `ValueError`,
rejects `amount > balance` with `InsufficientFundsError`, otherwise
subtracts through the balance setter. -/
def WalletM.withdraw (w : WalletM) (amount : ℚ) : Except Err WalletM :=
  if amount ≤ 0 then .error .invalidAmount
  else if w.balance < amount then
    .error (.insufficientFunds w.balance amount w.currencyCode)
  else
    match validateBalance (w.balance - amount) with
    | .error e => .error e
    | .ok b => .ok { w with balance := b }

/-- A single call of the wallet interface: a deposit or a withdrawal of a
given amount. -/
inductive WOp where
  | deposit (amount : ℚ)
  | withdraw (amount : ℚ)
deriving DecidableEq

/-- One wallet call as observed on the object: a raised error leaves the
wallet unchanged, because in the source every `raise` happens before the
balance assignment. -/
def WalletM.step (w : WalletM) (op : WOp) : WalletM × Option Err :=
  match op with
  | .deposit a =>
    match w.deposit a with
    | .ok w2 => (w2, none)
    | .error e => (w, some e)
  | .withdraw a =>
    match w.withdraw a with
    | .ok w2 => (w2, none)
    | .error e => (w, some e)

/-- Runs a sequence of deposit/withdraw calls on a wallet, each failed call
leaving the wallet unchanged. -/
def runOps (w : WalletM) (ops : List WOp) : WalletM :=
  ops.foldl (fun w op => (w.step op).1) w

/-- ASCII model of the cased characters that Python `str.isupper`
considers: the letters. -/
def isCasedChar (c : Char) : Bool :=
  ('A' ≤ c && c ≤ 'Z') || ('a' ≤ c && c ≤ 'z')

/-- ASCII model of an uppercase character. -/
def isUpperChar (c : Char) : Bool :=
  'A' ≤ c && c ≤ 'Z'

/-- ASCII model of Python `str.isupper()`: at least one cased character and
every cased character uppercase.  Faithful to the source on ASCII strings
(Python case rules are Unicode-wide; the theorems below only use ASCII). -/
def pyIsUpper (s : String) : Bool :=
  s.data.any (fun c => isCasedChar c) && s.data.all (fun c => !isCasedChar c || isUpperChar c)

/-- Embeds the code validation of `Currency.__init__` in
`core/currencies.py`: the constructor raises `ValueError` unless the code
is a non-empty string of length 2 to 5 with no space character that
satisfies `isupper()`.  Returns `true` exactly when no error is raised. -/
def currencyCodeOk (code : String) : Bool :=
  !code.data.isEmpty && decide (2 ≤ code.data.length) && decide (code.data.length ≤ 5)
    && !code.data.any (fun c => c = ' ') && pyIsUpper code

/-- Modelled from the spec (refinement reference): acceptance by the
pattern written in the spec, two to five characters all in `A`–`Z`. -/
def specCodePattern (code : String) : Bool :=
  decide (2 ≤ code.data.length) && decide (code.data.length ≤ 5)
    && code.data.all (fun c => isUpperChar c)

/-- Rounds a rational to the nearest multiple of `step` (the binary64
rounding grid at a given exponent; no tie arises in the inputs used
below). -/
def roundToGrid (step q : ℚ) : ℚ :=
  step * (round (q / step) : ℤ)

/-! Helper lemmas about single wallet calls. -/

/-- Equation for a rejected deposit. -/
theorem WalletM.step_deposit_nonpos (w : WalletM) (a : ℚ) (ha : a ≤ 0) :
    w.step (WOp.deposit a) = (w, some Err.invalidAmount) := by
  simp [WalletM.step, WalletM.deposit, ha]

/-- Equation for an accepted deposit from a non-negative balance. -/
theorem WalletM.step_deposit_pos (w : WalletM) (a : ℚ) (ha : 0 < a) (h : 0 ≤ w.balance) :
    w.step (WOp.deposit a) = ({ w with balance := w.balance + a }, none) := by
  have hnb : ¬ w.balance + a < 0 := by linarith
  simp [WalletM.step, WalletM.deposit, validateBalance, not_le.mpr ha, hnb]

/-- Equation for a withdrawal rejected on the amount. -/
theorem WalletM.step_withdraw_nonpos (w : WalletM) (a : ℚ) (ha : a ≤ 0) :
    w.step (WOp.withdraw a) = (w, some Err.invalidAmount) := by
  simp [WalletM.step, WalletM.withdraw, ha]

/-- Equation for a withdrawal rejected on the balance. -/
theorem WalletM.step_withdraw_short (w : WalletM) (a : ℚ) (ha : 0 < a)
    (hb : w.balance < a) :
    w.step (WOp.withdraw a)
      = (w, some (Err.insufficientFunds w.balance a w.currencyCode)) := by
  simp [WalletM.step, WalletM.withdraw, not_le.mpr ha, hb]

/-- Equation for an accepted withdrawal. -/
theorem WalletM.step_withdraw_ok (w : WalletM) (a : ℚ) (ha : 0 < a)
    (hb : a ≤ w.balance) :
    w.step (WOp.withdraw a) = ({ w with balance := w.balance - a }, none) := by
  have hnb : ¬ w.balance - a < 0 := by linarith
  simp [WalletM.step, WalletM.withdraw, validateBalance, not_le.mpr ha, not_lt.mpr hb, hnb]

/-- A wallet call from a non-negative balance keeps the balance
non-negative, and a failed call leaves the wallet unchanged and fails with
the invalid-amount or insufficient-funds error. -/
theorem WalletM.step_spec (w : WalletM) (op : WOp) (h : 0 ≤ w.balance) :
    0 ≤ (w.step op).1.balance ∧
      (∀ e, (w.step op).2 = some e →
        (w.step op).1 = w ∧
          (e = .invalidAmount ∨ ∃ av rq cd, e = .insufficientFunds av rq cd)) := by
  cases op with
  | deposit a =>
    by_cases ha : a ≤ 0
    · rw [WalletM.step_deposit_nonpos w a ha]
      refine ⟨h, fun e he => ?_⟩
      simp only [Option.some_inj] at he
      exact ⟨rfl, Or.inl he.symm⟩
    · push_neg at ha
      rw [WalletM.step_deposit_pos w a ha h]
      refine ⟨?_, fun e he => ?_⟩
      · show (0:ℚ) ≤ w.balance + a
        linarith
      · simp at he
  | withdraw a =>
    by_cases ha : a ≤ 0
    · rw [WalletM.step_withdraw_nonpos w a ha]
      refine ⟨h, fun e he => ?_⟩
      simp only [Option.some_inj] at he
      exact ⟨rfl, Or.inl he.symm⟩
    · push_neg at ha
      by_cases hb : w.balance < a
      · rw [WalletM.step_withdraw_short w a ha hb]
        refine ⟨h, fun e he => ?_⟩
        simp only [Option.some_inj] at he
        exact ⟨rfl, Or.inr ⟨w.balance, a, w.currencyCode, he.symm⟩⟩
      · push_neg at hb
        rw [WalletM.step_withdraw_ok w a ha hb]
        refine ⟨?_, fun e he => ?_⟩
        · show (0:ℚ) ≤ w.balance - a
          linarith
        · simp at he

/-- Running any sequence of wallet calls preserves balance
non-negativity. -/
theorem runOps_nonneg (ops : List WOp) (w : WalletM) (h : 0 ≤ w.balance) :
    0 ≤ (runOps w ops).balance := by
  induction ops generalizing w with
  | nil => simpa [runOps] using h
  | cons op rest ih =>
    have hstep := (WalletM.step_spec w op h).1
    simpa [runOps, List.foldl_cons] using ih ((w.step op).1) hstep

/-- C3.  For every sequence of deposit/withdraw calls on a wallet
constructed with a non-negative balance, the balance is non-negative after
every call; each call either succeeds or fails with the invalid-amount
`ValueError` or `InsufficientFundsError`, leaving the balance exactly
unchanged (rejection, never clamping). -/
theorem wallet_balance_invariant (w : WalletM) (ops : List WOp) (op : WOp)
    (h : 0 ≤ w.balance) :
    0 ≤ (runOps w ops).balance ∧
      0 ≤ ((runOps w ops).step op).1.balance ∧
      (∀ e, ((runOps w ops).step op).2 = some e →
        ((runOps w ops).step op).1 = runOps w ops ∧
          (e = .invalidAmount ∨ ∃ av rq cd, e = .insufficientFunds av rq cd)) := by
  have h1 := runOps_nonneg ops w h
  exact ⟨h1, (WalletM.step_spec _ op h1).1, (WalletM.step_spec _ op h1).2⟩

/-- Witness for C3 at a concrete wallet and call sequence. -/
theorem wallet_balance_invariant_witness :
    0 ≤ (runOps ⟨"USD", 5⟩ [WOp.deposit 3, WOp.withdraw 10]).balance ∧
      0 ≤ ((runOps ⟨"USD", 5⟩ [WOp.deposit 3, WOp.withdraw 10]).step (WOp.withdraw 100)).1.balance :=
  ⟨(wallet_balance_invariant ⟨"USD", 5⟩ [WOp.deposit 3, WOp.withdraw 10] (WOp.withdraw 100)
      (by norm_num)).1,
   (wallet_balance_invariant ⟨"USD", 5⟩ [WOp.deposit 3, WOp.withdraw 10] (WOp.withdraw 100)
      (by norm_num)).2.1⟩

/-- C7 counterexample.  The string `US1` is accepted by the constructor's
check (Python `"US1".isupper()` is `true`: the digit is uncased) but does
not match the spec's two-to-five-uppercase-letters pattern, so acceptance
is not equivalent to the pattern. -/
theorem currency_code_pattern_cex :
    currencyCodeOk "US1" = true ∧ specCodePattern "US1" = false := by
  constructor <;> decide

/-- C7 amended.  Every string matching the spec's pattern (two to five
characters all in `A`–`Z`) is accepted by the constructor's check; the
converse fails (see the counterexample), since the check also admits
uncased characters such as digits. -/
theorem currency_code_accepts_pattern (code : String)
    (h : specCodePattern code = true) : currencyCodeOk code = true := by
  simp only [specCodePattern, Bool.and_eq_true, decide_eq_true_eq, List.all_eq_true] at h
  obtain ⟨⟨h2, h5⟩, hall⟩ := h
  have hupper : ∀ c ∈ code.data, isUpperChar c = true := fun c hc => hall c hc
  simp only [currencyCodeOk, pyIsUpper, Bool.and_eq_true, decide_eq_true_eq,
    Bool.not_eq_true', List.any_eq_true, List.all_eq_true]
  refine ⟨⟨⟨⟨?_, h2⟩, h5⟩, ?_⟩, ?_, ?_⟩
  · cases hd : code.data with
    | nil => rw [hd] at h2; simp at h2
    | cons a l => simp
  · rw [List.any_eq_false]
    intro c hc
    have hu := hupper c hc
    simp only [isUpperChar, Bool.and_eq_true, decide_eq_true_eq] at hu
    simp only [decide_eq_true_eq]
    intro hsp
    subst hsp
    exact absurd hu.1 (by decide)
  · cases hd : code.data with
    | nil => rw [hd] at h2; simp at h2
    | cons a l =>
      refine ⟨a, List.mem_cons_self a l, ?_⟩
      have ha := hupper a (by rw [hd]; exact List.mem_cons_self a l)
      simp only [isCasedChar, Bool.or_eq_true]
      exact Or.inl ha
  · intro c hc
    have hu := hupper c hc
    simp only [Bool.or_eq_true, Bool.not_eq_true']
    exact Or.inr hu

/-- Witness for C7's amended theorem at the concrete code `USD`. -/
theorem currency_code_accepts_pattern_witness :
    specCodePattern "USD" = true ∧ currencyCodeOk "USD" = true :=
  ⟨by decide, currency_code_accepts_pattern "USD" (by decide)⟩

/-- C8.  Evaluation of the wallet round trip at the failing input under
binary64 (Python float) rounding.  With balance `1/2` and
`x = 10^16`, the exact post-deposit balance is `10^16 + 1/2`; binary64
stores sums of this magnitude on the grid of spacing `2` (the first two
conjuncts certify `2^52 ≤ (10^16 + 1/2)/2 < 2^53`, i.e. the significand
scale), so Python rounds the stored balance to exactly `10^16`.  The
subsequent `withdraw(10^16)` then leaves balance `0`, not the original
`1/2`: the round trip drifts, contradicting the spec's no-hidden-rounding
requirement. -/
theorem wallet_float_roundtrip_drift :
    (2 ^ 52 : ℚ) ≤ ((10000000000000000 : ℚ) + 1 / 2) / 2 ∧
      ((10000000000000000 : ℚ) + 1 / 2) / 2 < 2 ^ 53 ∧
      WalletM.deposit ⟨"USD", 1 / 2⟩ 10000000000000000
        = .ok ⟨"USD", 20000000000000001 / 2⟩ ∧
      roundToGrid 2 (20000000000000001 / 2) = 10000000000000000 ∧
      WalletM.withdraw ⟨"USD", 10000000000000000⟩ 10000000000000000 = .ok ⟨"USD", 0⟩ ∧
      (0 : ℚ) ≠ 1 / 2 := by
  refine ⟨by norm_num, by norm_num, ?_, ?_, ?_, by norm_num⟩
  · norm_num [WalletM.deposit, validateBalance]
  · have h4 : ((20000000000000001 : ℚ) / 2) / 2 + 1 / 2 = 20000000000000003 / 4 := by
      norm_num
    rw [roundToGrid, round_eq, h4]
    have hfl : ⌊(20000000000000003 : ℚ) / 4⌋ = 5000000000000000 := by
      rw [Int.floor_eq_iff]
      constructor <;> norm_num
    rw [hfl]
    norm_num
  · norm_num [WalletM.withdraw, validateBalance]

/-- Embeds a cached rate record of `rates.json` as read by
`cli/interface.py`: the `rate` value and the `updated_at` timestamp.
`updatedAt = none` models an `updated_at` string that
`datetime.fromisoformat` rejects (the `except ValueError` branch of
`is_rate_fresh`). -/
structure RateEntry where
  rate : ℚ
  updatedAt : Option ℤ
deriving DecidableEq

/-- The `rates_data` dictionary: ordered key/entry pairs with Python dict
semantics (first occurrence wins on lookup, assignment replaces in place
or appends a new key at the end). -/
abbrev RatesData := List (String × RateEntry)

/-- Dictionary lookup `rates_data[key]` (with the `key in rates_data`
membership test folded in: `none` when absent). -/
def lookupRate : RatesData → String → Option RateEntry
  | [], _ => none
  | q :: rest, key => if q.1 = key then some q.2 else lookupRate rest key

/-- Dictionary assignment `rates_data[key] = entry`. -/
def setRate : RatesData → String → RateEntry → RatesData
  | [], key, e => [(key, e)]
  | q :: rest, key, e => if q.1 = key then (key, e) :: rest else q :: setRate rest key e

/-- Microsecond ticks in a number of minutes, the exact value of
`timedelta(minutes=m)` at `datetime` resolution. -/
def minutesToTicks (m : ℤ) : ℤ := m * 60000000

/-- Embeds `is_rate_fresh` of `cli/interface.py`: the entry is fresh when
`now - updated_at <= timedelta(minutes=max_age_minutes)` (the bound is
inclusive); an unparseable timestamp is never fresh. -/
def is_rate_fresh (now : ℤ) (updatedAt : Option ℤ) (maxAgeMinutes : ℤ) : Bool :=
  match updatedAt with
  | none => false
  | some t => decide (now - t ≤ minutesToTicks maxAgeMinutes)

/-- Embeds the rate-source stub of `cli/interface.py` (the `mock_rates`
table of the fetch function standing in for the external service): the
four known ordered pairs yield their mocked rate stamped with the current
time; any other pair fails with `None`. -/
def fetchRateFromService (now : ℤ) (fromC toC : String) : Option RateEntry :=
  let key := fromC ++ "_" ++ toC
  if key = "USD_BTC" then some ⟨(1685 : ℚ) / 100000000, some now⟩
  else if key = "BTC_USD" then some ⟨(5933721 : ℚ) / 100, some now⟩
  else if key = "USD_ETH" then some ⟨(268 : ℚ) / 1000000, some now⟩
  else if key = "ETH_USD" then some ⟨(373134 : ℚ) / 100, some now⟩
  else none

/-- Observable outcome of `get_exchange_rate`: the returned entry (`none`
is the RateUnavailable outcome), the rates dictionary afterwards, how many
`save_json` writes of the cache happened, and how many calls went to the
external source. -/
structure RateOutcome where
  result : Option RateEntry
  rates : RatesData
  saves : ℕ
  fetches : ℕ
deriving DecidableEq

/-- Embeds `get_exchange_rate` of `cli/interface.py`: a cached entry that
is fresh is returned unchanged; otherwise the source is called, on success
the entry is stored under the pair key and the cache persisted, on failure
the call returns `None`. -/
def get_exchange_rate (now : ℤ) (rates : RatesData) (fromC toC : String) : RateOutcome :=
  let key := fromC ++ "_" ++ toC
  match lookupRate rates key with
  | some entry =>
    if is_rate_fresh now entry.updatedAt 5 then ⟨some entry, rates, 0, 0⟩
    else
      match fetchRateFromService now fromC toC with
      | some newRate => ⟨some newRate, setRate rates key newRate, 1, 1⟩
      | none => ⟨none, rates, 0, 1⟩
  | none =>
    match fetchRateFromService now fromC toC with
    | some newRate => ⟨some newRate, setRate rates key newRate, 1, 1⟩
    | none => ⟨none, rates, 0, 1⟩

/-- C4.  A cached entry for the ordered pair whose age `now - fetchedAt`
is at most the freshness window (default five minutes) is returned
unchanged, with no call to the rate source and no cache write; the bound
is inclusive, so an entry exactly at the window's age is still fresh, and
any entry even one microsecond tick past the window sends the call to the
source. -/
theorem rate_freshness_window (now t : ℤ) (rates : RatesData) (fromC toC : String)
    (e : RateEntry)
    (h1 : lookupRate rates (fromC ++ "_" ++ toC) = some e)
    (h2 : e.updatedAt = some t) :
    (now - t ≤ minutesToTicks 5 →
       get_exchange_rate now rates fromC toC = ⟨some e, rates, 0, 0⟩) ∧
    (minutesToTicks 5 < now - t →
       (get_exchange_rate now rates fromC toC).fetches = 1) := by
  constructor
  · intro hfresh
    have hf : is_rate_fresh now e.updatedAt 5 = true := by
      rw [h2]
      simp only [is_rate_fresh, decide_eq_true_eq]
      exact hfresh
    simp [get_exchange_rate, h1, hf]
  · intro hstale
    have hf : is_rate_fresh now e.updatedAt 5 = false := by
      rw [h2]
      simp only [is_rate_fresh, decide_eq_false_iff_not]
      exact not_le.mpr hstale
    cases hsrc : fetchRateFromService now fromC toC <;>
      simp [get_exchange_rate, h1, hf, hsrc]

/-- Witness for C4 at a concrete cache: an `EUR_USD` entry queried exactly
at the window boundary is served from the cache, and one tick later the
source is called. -/
theorem rate_freshness_window_witness :
    get_exchange_rate 300000000 [("EUR_USD", ⟨11 / 10, some 0⟩)] "EUR" "USD"
        = ⟨some ⟨11 / 10, some 0⟩, [("EUR_USD", ⟨11 / 10, some 0⟩)], 0, 0⟩ ∧
      (get_exchange_rate 300000001 [("EUR_USD", ⟨11 / 10, some 0⟩)] "EUR" "USD").fetches = 1 :=
  ⟨(rate_freshness_window 300000000 0 [("EUR_USD", ⟨11 / 10, some 0⟩)] "EUR" "USD"
      ⟨11 / 10, some 0⟩ rfl rfl).1 (by decide),
   (rate_freshness_window 300000001 0 [("EUR_USD", ⟨11 / 10, some 0⟩)] "EUR" "USD"
      ⟨11 / 10, some 0⟩ rfl rfl).2 (by decide)⟩

/-- C5.  When the cached entry for the pair is older than the freshness
window and the rate source fails for that pair, `get_exchange_rate` fails
with the RateUnavailable outcome (`none`): the stale cached value is not
returned, and the cache is left unchanged with no write. -/
theorem stale_rate_hard_miss (now t : ℤ) (rates : RatesData) (fromC toC : String)
    (e : RateEntry)
    (h1 : lookupRate rates (fromC ++ "_" ++ toC) = some e)
    (h2 : e.updatedAt = some t)
    (h3 : minutesToTicks 5 < now - t)
    (h4 : fetchRateFromService now fromC toC = none) :
    get_exchange_rate now rates fromC toC = ⟨none, rates, 0, 1⟩ := by
  have hf : is_rate_fresh now e.updatedAt 5 = false := by
    rw [h2]
    simp only [is_rate_fresh, decide_eq_false_iff_not]
    exact not_le.mpr h3
  simp [get_exchange_rate, h1, hf, h4]

/-- Witness for C5: the spec's own scenario, an `EUR_USD` entry fetched at
`T` queried at `T` plus six minutes with the source not knowing the pair. -/
theorem stale_rate_hard_miss_witness :
    get_exchange_rate 360000000 [("EUR_USD", ⟨11 / 10, some 0⟩)] "EUR" "USD"
      = ⟨none, [("EUR_USD", ⟨11 / 10, some 0⟩)], 0, 1⟩ :=
  stale_rate_hard_miss 360000000 0 [("EUR_USD", ⟨11 / 10, some 0⟩)] "EUR" "USD"
    ⟨11 / 10, some 0⟩ rfl rfl (by decide) rfl

/-- C6 counterexample.  `get_exchange_rate` on the same-currency pair
`(USD, USD)` with an empty cache returns `none` after consulting the
source (one fetch), not a synthetic entry with rate `1.0`: the claimed
`fromCode == toCode` shortcut does not exist in that function (it appears
only in a commented-out CLI block upstream of the call). -/
theorem same_currency_synthetic_cex :
    (get_exchange_rate 0 [] "USD" "USD").result = none ∧
      (get_exchange_rate 0 [] "USD" "USD").fetches = 1 := by
  constructor <;> decide

/-- C6 amended.  `get_exchange_rate` applies no same-currency special
case: a pair `(c, c)` takes the ordinary path under the cache key `c_c` —
a fresh cached entry is returned as-is, whatever its rate, and when the
cache misses and the source does not know the pair the call fails with
the RateUnavailable outcome instead of producing a synthetic rate-1
entry. -/
theorem same_currency_no_shortcut (now : ℤ) (rates : RatesData) (c : String)
    (e : RateEntry) :
    (lookupRate rates (c ++ "_" ++ c) = some e →
       is_rate_fresh now e.updatedAt 5 = true →
       get_exchange_rate now rates c c = ⟨some e, rates, 0, 0⟩) ∧
    (lookupRate rates (c ++ "_" ++ c) = none →
       fetchRateFromService now c c = none →
       get_exchange_rate now rates c c = ⟨none, rates, 0, 1⟩) := by
  constructor
  · intro h1 hf
    simp [get_exchange_rate, h1, hf]
  · intro h1 h4
    simp [get_exchange_rate, h1, h4]

/-- Witness for C6's amended theorem: a cached `USD_USD` entry with rate 2
is returned as-is, and the empty-cache same-currency call fails. -/
theorem same_currency_no_shortcut_witness :
    get_exchange_rate 0 [("USD_USD", ⟨2, some 0⟩)] "USD" "USD"
        = ⟨some ⟨2, some 0⟩, [("USD_USD", ⟨2, some 0⟩)], 0, 0⟩ ∧
      get_exchange_rate 0 [] "USD" "USD" = ⟨none, [], 0, 1⟩ :=
  ⟨(same_currency_no_shortcut 0 [("USD_USD", ⟨2, some 0⟩)] "USD" ⟨2, some 0⟩).1
      rfl (by decide),
   (same_currency_no_shortcut 0 [] "USD" ⟨2, some 0⟩).2 rfl rfl⟩

/-- Embeds the `Portfolio` of `core/models.py` in its persisted form: the
user id and the wallets dictionary, as ordered code/wallet pairs with
Python dict semantics (first occurrence wins on lookup, new keys are
appended).  `Portfolio.to_dict`/`from_dict` round-trip every field used by
the trade paths, so the stored record and the object are identified. -/
structure PortfolioM where
  userId : ℤ
  wallets : List (String × WalletM)
deriving DecidableEq

/-- Dictionary lookup over the wallets pairs, the common core of
`Portfolio.get_wallet` (`dict.get`) and the `in` membership test. -/
def findWallet : List (String × WalletM) → String → Option WalletM
  | [], _ => none
  | q :: rest, code => if q.1 = code then some q.2 else findWallet rest code

/-- Embeds `Portfolio.get_wallet`: the wallet under the code, or `none`. -/
def PortfolioM.get_wallet (p : PortfolioM) (code : String) : Option WalletM :=
  findWallet p.wallets code

/-- Replaces the entry under `code` by the updated wallet: the pure
counterpart of mutating, through an alias, a wallet object stored in the
wallets dictionary. -/
def setWalletList : List (String × WalletM) → String → WalletM → List (String × WalletM)
  | [], _, _ => []
  | q :: rest, code, w =>
    if q.1 = code then (code, w) :: rest else q :: setWalletList rest code w

/-- Write-back of an updated wallet into a portfolio. -/
def PortfolioM.setWallet (p : PortfolioM) (code : String) (w : WalletM) : PortfolioM :=
  { p with wallets := setWalletList p.wallets code w }

/-- Embeds `Portfolio.add_currency`: raises `ValueError` when the currency
is already present, otherwise stores a fresh wallet with zero balance
under the new key. -/
def PortfolioM.add_currency (p : PortfolioM) (code : String) : Except Err PortfolioM :=
  if (findWallet p.wallets code).isSome then .error (.duplicateCurrency code)
  else .ok { p with wallets := p.wallets ++ [(code, ⟨code, 0⟩)] }

/-- Embeds `show_portfolio` of `core/usecases.py`: the first stored record
with the requested user id, deserialized; `none` when absent. -/
def show_portfolio : List PortfolioM → ℤ → Option PortfolioM
  | [], _ => none
  | p :: rest, uid => if p.userId = uid then some p else show_portfolio rest uid

/-- Embeds the write-back loop closing `buy_currency`/`sell_currency`:
replace the first stored record with the matching user id, then `break`.
Also counts the store writes performed. -/
def updateFirst : List PortfolioM → ℤ → PortfolioM → List PortfolioM × ℕ
  | [], _, _ => ([], 0)
  | q :: rest, uid, p =>
    if q.userId = uid then (p :: rest, 1)
    else
      let r := updateFirst rest uid p
      (q :: r.1, r.2)

/-- Balance held in a portfolio for a currency code, zero when no wallet
exists yet (the balance a freshly created wallet starts from). -/
def PortfolioM.bal (p : PortfolioM) (code : String) : ℚ :=
  ((p.get_wallet code).map (fun w => w.balance)).getD 0

/-- Observable outcome of a trade call: the Python return value or raised
exception, the stored portfolio records afterwards, the rates dictionary
afterwards, and the number of store writes performed. -/
structure TradeOutcome where
  result : Except Err Bool
  portfolios : List PortfolioM
  rates : RatesData
  writes : ℕ
deriving DecidableEq

/-- Embeds `buy_currency` of `core/usecases.py`.  Control flow of the
source, in order: load the portfolio (first record for the user); read the
cached rate under `{currency}_USD` (`return False` when the key is
absent); compute `usd_cost = amount * rate`; `return False` when the USD
wallet is missing or its balance is below the cost; withdraw the cost from
the USD wallet; create a zero-balance wallet for the currency when absent
(the guarded `add_currency` call); deposit the amount into it; finally
write the updated record back into the store (first matching slot, one
write).  A raised wallet exception propagates with the store untouched,
since the mutations happen on the deserialized copy and the write-back is
the last step. -/
def buy_currency (portfolios : List PortfolioM) (rates : RatesData)
    (userId : ℤ) (currency : String) (amount : ℚ) : TradeOutcome :=
  match show_portfolio portfolios userId with
  | none => ⟨.ok false, portfolios, rates, 0⟩
  | some portfolio =>
    match lookupRate rates (currency ++ "_USD") with
    | none => ⟨.ok false, portfolios, rates, 0⟩
    | some entry =>
      let rate := entry.rate
      let usdCost := amount * rate
      match portfolio.get_wallet "USD" with
      | none => ⟨.ok false, portfolios, rates, 0⟩
      | some usdWallet =>
        if usdWallet.balance < usdCost then ⟨.ok false, portfolios, rates, 0⟩
        else
          match usdWallet.withdraw usdCost with
          | .error e => ⟨.error e, portfolios, rates, 0⟩
          | .ok usdWallet2 =>
            let portfolio2 := portfolio.setWallet "USD" usdWallet2
            match
              (if (portfolio2.get_wallet currency).isSome then Except.ok portfolio2
               else portfolio2.add_currency currency) with
            | .error e => ⟨.error e, portfolios, rates, 0⟩
            | .ok portfolio3 =>
              match portfolio3.get_wallet currency with
              | none => ⟨.error .attributeNone, portfolios, rates, 0⟩
              | some target =>
                match target.deposit amount with
                | .error e => ⟨.error e, portfolios, rates, 0⟩
                | .ok target2 =>
                  let portfolio4 := portfolio3.setWallet currency target2
                  let u := updateFirst portfolios userId portfolio4
                  ⟨.ok true, u.1, rates, u.2⟩

/-- Embeds `sell_currency` of `core/usecases.py`.  Control flow of the
source, in order: load the portfolio; `return False` when the wallet for
the currency is missing or its balance is below the amount; read the
cached rate under `{currency}_USD` (`return False` when absent); compute
`usd_revenue = amount * rate`; withdraw the amount from the source wallet;
deposit the revenue into the USD wallet, creating it first with zero
balance when absent; write the updated record back (one store write). -/
def sell_currency (portfolios : List PortfolioM) (rates : RatesData)
    (userId : ℤ) (currency : String) (amount : ℚ) : TradeOutcome :=
  match show_portfolio portfolios userId with
  | none => ⟨.ok false, portfolios, rates, 0⟩
  | some portfolio =>
    match portfolio.get_wallet currency with
    | none => ⟨.ok false, portfolios, rates, 0⟩
    | some wallet =>
      if wallet.balance < amount then ⟨.ok false, portfolios, rates, 0⟩
      else
        match lookupRate rates (currency ++ "_USD") with
        | none => ⟨.ok false, portfolios, rates, 0⟩
        | some entry =>
          let rate := entry.rate
          let usdRevenue := amount * rate
          match wallet.withdraw amount with
          | .error e => ⟨.error e, portfolios, rates, 0⟩
          | .ok wallet2 =>
            let portfolio2 := portfolio.setWallet currency wallet2
            match portfolio2.get_wallet "USD" with
            | some usdWallet =>
              match usdWallet.deposit usdRevenue with
              | .error e => ⟨.error e, portfolios, rates, 0⟩
              | .ok usdWallet2 =>
                let portfolio3 := portfolio2.setWallet "USD" usdWallet2
                let u := updateFirst portfolios userId portfolio3
                ⟨.ok true, u.1, rates, u.2⟩
            | none =>
              match portfolio2.add_currency "USD" with
              | .error e => ⟨.error e, portfolios, rates, 0⟩
              | .ok portfolio3 =>
                match portfolio3.get_wallet "USD" with
                | none => ⟨.error .attributeNone, portfolios, rates, 0⟩
                | some usdWallet =>
                  match usdWallet.deposit usdRevenue with
                  | .error e => ⟨.error e, portfolios, rates, 0⟩
                  | .ok usdWallet2 =>
                    let portfolio4 := portfolio3.setWallet "USD" usdWallet2
                    let u := updateFirst portfolios userId portfolio4
                    ⟨.ok true, u.1, rates, u.2⟩

/-! Helper lemmas about the wallets dictionary and the store. -/

/-- Updating a present key makes the lookup return the new wallet. -/
theorem findWallet_set_self (ws : List (String × WalletM)) (code : String) (w : WalletM)
    (h : (findWallet ws code).isSome) :
    findWallet (setWalletList ws code w) code = some w := by
  induction ws with
  | nil => simp [findWallet] at h
  | cons q rest ih =>
    by_cases hq : q.1 = code
    · simp [findWallet, setWalletList, hq]
    · simp only [findWallet, setWalletList, hq, if_false, if_neg hq] at h ⊢
      exact ih h

/-- Updating one key leaves lookups of any other key unchanged. -/
theorem findWallet_set_ne (ws : List (String × WalletM)) (code code2 : String)
    (w : WalletM) (h : code2 ≠ code) :
    findWallet (setWalletList ws code w) code2 = findWallet ws code2 := by
  have h2 : ¬ code = code2 := fun hc => h hc.symm
  induction ws with
  | nil => simp [findWallet, setWalletList]
  | cons q rest ih =>
    by_cases hq : q.1 = code
    · simp [findWallet, setWalletList, hq, h2]
    · simp only [setWalletList, hq, if_false, if_neg hq, findWallet]
      by_cases hq2 : q.1 = code2
      · simp [hq2]
      · simp only [hq2, if_false, if_neg hq2]
        exact ih

/-- Appending a fresh key makes its lookup return the new wallet when the
key was absent before. -/
theorem findWallet_append_self (ws : List (String × WalletM)) (code : String)
    (w : WalletM) (h : findWallet ws code = none) :
    findWallet (ws ++ [(code, w)]) code = some w := by
  induction ws with
  | nil => simp [findWallet]
  | cons q rest ih =>
    by_cases hq : q.1 = code
    · simp [findWallet, hq] at h
    · simp only [findWallet, hq, if_false, if_neg hq, List.cons_append] at h ⊢
      exact ih h

/-- Appending an entry under a different key leaves a lookup unchanged. -/
theorem findWallet_append_ne (ws : List (String × WalletM)) (code code2 : String)
    (w : WalletM) (h : code2 ≠ code) :
    findWallet (ws ++ [(code, w)]) code2 = findWallet ws code2 := by
  have h2 : ¬ code = code2 := fun hc => h hc.symm
  induction ws with
  | nil => simp [findWallet, h2]
  | cons q rest ih =>
    by_cases hq : q.1 = code2
    · simp [findWallet, hq]
    · simp only [findWallet, List.cons_append, hq, if_false, if_neg hq]
      exact ih

/-- A record found by `show_portfolio` carries the requested user id. -/
theorem show_portfolio_userId (ps : List PortfolioM) (uid : ℤ) (p : PortfolioM)
    (h : show_portfolio ps uid = some p) : p.userId = uid := by
  induction ps with
  | nil => simp [show_portfolio] at h
  | cons q rest ih =>
    by_cases hq : q.userId = uid
    · simp only [show_portfolio, hq, if_true, Option.some_inj] at h
      rw [← h]
      exact hq
    · simp only [show_portfolio, hq, if_false, if_neg hq] at h
      exact ih h

/-- When the store holds a record for the user, the write-back loop
replaces exactly the first matching slot (one write) and a subsequent load
sees the new record. -/
theorem updateFirst_of_found (ps : List PortfolioM) (uid : ℤ) (p0 pNew : PortfolioM)
    (h : show_portfolio ps uid = some p0) :
    ∃ i, ps.get? i = some p0 ∧ updateFirst ps uid pNew = (ps.set i pNew, 1) ∧
      (pNew.userId = uid → show_portfolio (ps.set i pNew) uid = some pNew) := by
  induction ps with
  | nil => simp [show_portfolio] at h
  | cons q rest ih =>
    by_cases hq : q.userId = uid
    · refine ⟨0, ?_, ?_, ?_⟩
      · simp only [show_portfolio, hq, if_true, Option.some_inj] at h
        simp [h]
      · simp [updateFirst, hq]
      · intro hnew
        simp [show_portfolio, List.set, hnew]
    · simp only [show_portfolio, hq, if_false, if_neg hq] at h
      obtain ⟨i, h1, h2, h3⟩ := ih h
      refine ⟨i + 1, ?_, ?_, ?_⟩
      · simpa [List.get?] using h1
      · simp only [updateFirst, hq, if_false, if_neg hq, h2, List.set]
      · intro hnew
        simp only [List.set, show_portfolio, hq, if_false, if_neg hq]
        exact h3 hnew

/-- Successful withdrawal: the amount was positive and covered, and the
wallet lost exactly the amount. -/
theorem WalletM.withdraw_ok (w : WalletM) (x : ℚ) (w2 : WalletM)
    (h : w.withdraw x = .ok w2) :
    0 < x ∧ x ≤ w.balance ∧ w2 = { w with balance := w.balance - x } := by
  unfold WalletM.withdraw validateBalance at h
  by_cases h1 : x ≤ 0
  · rw [if_pos h1] at h
    exact absurd h (by simp)
  · rw [if_neg h1] at h
    by_cases h2 : w.balance < x
    · rw [if_pos h2] at h
      exact absurd h (by simp)
    · rw [if_neg h2] at h
      by_cases h3 : w.balance - x < 0
      · rw [if_pos h3] at h
        exact absurd h (by simp)
      · rw [if_neg h3] at h
        have h4 : Except.ok ({ w with balance := w.balance - x } : WalletM) = .ok w2 := h
        simp only [Except.ok.injEq] at h4
        exact ⟨not_le.mp h1, not_lt.mp h2, h4.symm⟩

/-- Successful deposit: the amount was positive and the wallet gained
exactly the amount. -/
theorem WalletM.deposit_ok (w : WalletM) (x : ℚ) (w2 : WalletM)
    (h : w.deposit x = .ok w2) :
    0 < x ∧ w2 = { w with balance := w.balance + x } := by
  unfold WalletM.deposit validateBalance at h
  by_cases h1 : x ≤ 0
  · rw [if_pos h1] at h
    exact absurd h (by simp)
  · rw [if_neg h1] at h
    by_cases h2 : w.balance + x < 0
    · rw [if_pos h2] at h
      exact absurd h (by simp)
    · rw [if_neg h2] at h
      have h4 : Except.ok ({ w with balance := w.balance + x } : WalletM) = .ok w2 := h
      simp only [Except.ok.injEq] at h4
      exact ⟨not_le.mp h1, h4.symm⟩

/-- Write discipline of `buy_currency`: a successful call performs exactly
one store write, replacing one record of the traded user; any other
outcome leaves the store untouched with zero writes. -/
theorem buy_writes (ps : List PortfolioM) (rates : RatesData) (uid : ℤ) (c : String)
    (a : ℚ) :
    ((buy_currency ps rates uid c a).result = .ok true ∧
       (buy_currency ps rates uid c a).writes = 1 ∧
       ∃ i q pNew, ps.get? i = some q ∧ q.userId = uid ∧
         (buy_currency ps rates uid c a).portfolios = ps.set i pNew) ∨
    ((buy_currency ps rates uid c a).result ≠ .ok true ∧
       (buy_currency ps rates uid c a).portfolios = ps ∧
       (buy_currency ps rates uid c a).writes = 0) := by
  unfold buy_currency
  cases hp : show_portfolio ps uid with
  | none => right; exact ⟨by simp, rfl, rfl⟩
  | some portfolio =>
    dsimp only
    cases he : lookupRate rates (c ++ "_USD") with
    | none => right; exact ⟨by simp, rfl, rfl⟩
    | some entry =>
      dsimp only
      cases hw : portfolio.get_wallet "USD" with
      | none => right; exact ⟨by simp, rfl, rfl⟩
      | some usdWallet =>
        dsimp only
        by_cases hb : usdWallet.balance < a * entry.rate
        · rw [if_pos hb]
          right; exact ⟨by simp, rfl, rfl⟩
        · rw [if_neg hb]
          cases hwd : usdWallet.withdraw (a * entry.rate) with
          | error e => right; exact ⟨by simp, rfl, rfl⟩
          | ok usdWallet2 =>
            dsimp only
            by_cases hcw : ((portfolio.setWallet "USD" usdWallet2).get_wallet c).isSome
            · rw [if_pos hcw]
              dsimp only
              cases hgw : (portfolio.setWallet "USD" usdWallet2).get_wallet c with
              | none => right; exact ⟨by simp, rfl, rfl⟩
              | some target =>
                dsimp only
                cases hdep : target.deposit a with
                | error e => right; exact ⟨by simp, rfl, rfl⟩
                | ok target2 =>
                  left
                  obtain ⟨i, h1, h2, h3⟩ :=
                    updateFirst_of_found ps uid portfolio
                      ((portfolio.setWallet "USD" usdWallet2).setWallet c target2) hp
                  exact ⟨rfl, by dsimp only; rw [h2], i, portfolio,
                    (portfolio.setWallet "USD" usdWallet2).setWallet c target2,
                    h1, show_portfolio_userId ps uid portfolio hp,
                    by dsimp only; rw [h2]⟩
            · rw [if_neg hcw]
              cases hadd : (portfolio.setWallet "USD" usdWallet2).add_currency c with
              | error e => right; exact ⟨by simp, rfl, rfl⟩
              | ok portfolio3 =>
                dsimp only
                cases hgw : portfolio3.get_wallet c with
                | none => right; exact ⟨by simp, rfl, rfl⟩
                | some target =>
                  dsimp only
                  cases hdep : target.deposit a with
                  | error e => right; exact ⟨by simp, rfl, rfl⟩
                  | ok target2 =>
                    left
                    obtain ⟨i, h1, h2, h3⟩ :=
                      updateFirst_of_found ps uid portfolio
                        (portfolio3.setWallet c target2) hp
                    exact ⟨rfl, by dsimp only; rw [h2], i, portfolio,
                      portfolio3.setWallet c target2,
                      h1, show_portfolio_userId ps uid portfolio hp,
                      by dsimp only; rw [h2]⟩

/-- Write discipline of `sell_currency`, as for `buy_currency`. -/
theorem sell_writes (ps : List PortfolioM) (rates : RatesData) (uid : ℤ) (c : String)
    (a : ℚ) :
    ((sell_currency ps rates uid c a).result = .ok true ∧
       (sell_currency ps rates uid c a).writes = 1 ∧
       ∃ i q pNew, ps.get? i = some q ∧ q.userId = uid ∧
         (sell_currency ps rates uid c a).portfolios = ps.set i pNew) ∨
    ((sell_currency ps rates uid c a).result ≠ .ok true ∧
       (sell_currency ps rates uid c a).portfolios = ps ∧
       (sell_currency ps rates uid c a).writes = 0) := by
  unfold sell_currency
  cases hp : show_portfolio ps uid with
  | none => right; exact ⟨by simp, rfl, rfl⟩
  | some portfolio =>
    dsimp only
    cases hw : portfolio.get_wallet c with
    | none => right; exact ⟨by simp, rfl, rfl⟩
    | some wallet =>
      dsimp only
      by_cases hb : wallet.balance < a
      · rw [if_pos hb]
        right; exact ⟨by simp, rfl, rfl⟩
      · rw [if_neg hb]
        cases he : lookupRate rates (c ++ "_USD") with
        | none => right; exact ⟨by simp, rfl, rfl⟩
        | some entry =>
          dsimp only
          cases hwd : wallet.withdraw a with
          | error e => right; exact ⟨by simp, rfl, rfl⟩
          | ok wallet2 =>
            dsimp only
            cases hgw : (portfolio.setWallet c wallet2).get_wallet "USD" with
            | some usdWallet =>
              dsimp only
              cases hdep : usdWallet.deposit (a * entry.rate) with
              | error e => right; exact ⟨by simp, rfl, rfl⟩
              | ok usdWallet2 =>
                left
                obtain ⟨i, h1, h2, h3⟩ :=
                  updateFirst_of_found ps uid portfolio
                    ((portfolio.setWallet c wallet2).setWallet "USD" usdWallet2) hp
                exact ⟨rfl, by dsimp only; rw [h2], i, portfolio,
                  (portfolio.setWallet c wallet2).setWallet "USD" usdWallet2,
                  h1, show_portfolio_userId ps uid portfolio hp,
                  by dsimp only; rw [h2]⟩
            | none =>
              dsimp only
              cases hadd : (portfolio.setWallet c wallet2).add_currency "USD" with
              | error e => right; exact ⟨by simp, rfl, rfl⟩
              | ok portfolio3 =>
                dsimp only
                cases hgw2 : portfolio3.get_wallet "USD" with
                | none => right; exact ⟨by simp, rfl, rfl⟩
                | some usdWallet =>
                  dsimp only
                  cases hdep : usdWallet.deposit (a * entry.rate) with
                  | error e => right; exact ⟨by simp, rfl, rfl⟩
                  | ok usdWallet2 =>
                    left
                    obtain ⟨i, h1, h2, h3⟩ :=
                      updateFirst_of_found ps uid portfolio
                        (portfolio3.setWallet "USD" usdWallet2) hp
                    exact ⟨rfl, by dsimp only; rw [h2], i, portfolio,
                      portfolio3.setWallet "USD" usdWallet2,
                      h1, show_portfolio_userId ps uid portfolio hp,
                      by dsimp only; rw [h2]⟩

/-- Reading the balance through `bal` when the wallet exists. -/
theorem PortfolioM.bal_of_get (p : PortfolioM) (code : String) (w0 : WalletM)
    (h : p.get_wallet code = some w0) : p.bal code = w0.balance := by
  simp [PortfolioM.bal, h]

/-- Reading the balance through `bal` when no wallet exists. -/
theorem PortfolioM.bal_of_none (p : PortfolioM) (code : String)
    (h : p.get_wallet code = none) : p.bal code = 0 := by
  simp [PortfolioM.bal, h]

/-- Looking up an untouched key after a write-back. -/
theorem PortfolioM.get_wallet_set_ne (p : PortfolioM) (code code2 : String)
    (w : WalletM) (h : code2 ≠ code) :
    (p.setWallet code w).get_wallet code2 = p.get_wallet code2 :=
  findWallet_set_ne p.wallets code code2 w h

/-- Balance of the written-back wallet. -/
theorem PortfolioM.bal_set_self (p : PortfolioM) (code : String) (w0 w : WalletM)
    (h : p.get_wallet code = some w0) : (p.setWallet code w).bal code = w.balance := by
  have h2 : findWallet p.wallets code = some w0 := h
  unfold PortfolioM.bal PortfolioM.get_wallet PortfolioM.setWallet
  rw [findWallet_set_self p.wallets code w (by rw [h2]; rfl)]
  rfl

/-- Balance of an untouched wallet after a write-back. -/
theorem PortfolioM.bal_set_ne (p : PortfolioM) (code code2 : String) (w : WalletM)
    (h : code2 ≠ code) : (p.setWallet code w).bal code2 = p.bal code2 := by
  unfold PortfolioM.bal
  rw [PortfolioM.get_wallet_set_ne p code code2 w h]

/-- Looking up the freshly added key after `add_currency` appends it. -/
theorem PortfolioM.get_wallet_append_self (p : PortfolioM) (code : String) (w : WalletM)
    (h : p.get_wallet code = none) :
    ({ p with wallets := p.wallets ++ [(code, w)] } : PortfolioM).get_wallet code
      = some w :=
  findWallet_append_self p.wallets code w h

/-- Balance of an untouched wallet after `add_currency` appends another. -/
theorem PortfolioM.bal_append_ne (p : PortfolioM) (code code2 : String) (w : WalletM)
    (h : code2 ≠ code) :
    ({ p with wallets := p.wallets ++ [(code, w)] } : PortfolioM).bal code2
      = p.bal code2 := by
  unfold PortfolioM.bal PortfolioM.get_wallet
  rw [show ({ p with wallets := p.wallets ++ [(code, w)] } : PortfolioM).wallets
        = p.wallets ++ [(code, w)] from rfl,
      findWallet_append_ne p.wallets code code2 w h]

/-- `add_currency` on an absent code appends a zero-balance wallet. -/
theorem PortfolioM.add_currency_absent (p : PortfolioM) (code : String)
    (h : p.get_wallet code = none) :
    p.add_currency code
      = .ok { p with wallets := p.wallets ++ [(code, ⟨code, 0⟩)] } := by
  have h2 : findWallet p.wallets code = none := h
  simp [PortfolioM.add_currency, h2]

/-- A rejected deposit of a non-positive amount. -/
theorem WalletM.deposit_nonpos (w : WalletM) (x : ℚ) (hx : x ≤ 0) :
    w.deposit x = .error .invalidAmount := by
  simp [WalletM.deposit, hx]

/-- A rejected withdrawal of a non-positive amount. -/
theorem WalletM.withdraw_nonpos (w : WalletM) (x : ℚ) (hx : x ≤ 0) :
    w.withdraw x = .error .invalidAmount := by
  simp [WalletM.withdraw, hx]

/-- A withdrawal that fails although the balance covers the amount can
only have failed the amount check. -/
theorem WalletM.withdraw_error_covered (w : WalletM) (x : ℚ) (e : Err)
    (h : w.withdraw x = .error e) (hb : ¬ w.balance < x) : e = .invalidAmount := by
  unfold WalletM.withdraw validateBalance at h
  by_cases h1 : x ≤ 0
  · rw [if_pos h1] at h
    simp only [Except.error.injEq] at h
    exact h.symm
  · rw [if_neg h1, if_neg hb] at h
    by_cases h3 : w.balance - x < 0
    · exact absurd (by linarith) hb
    · rw [if_neg h3] at h
      exact absurd h (by simp)

/-- C2.  A Buy or Sell that fails at any validation step (missing
portfolio, missing or unavailable rate, missing source wallet,
insufficient balance — or any raised wallet error) leaves the stored
portfolio collection, and with it every wallet state, unchanged from
before the call and performs zero store writes; a successful trade
performs exactly one store write, replacing a single stored record of the
traded user. -/
theorem trade_write_discipline (ps : List PortfolioM) (rates : RatesData) (uid : ℤ)
    (c : String) (a : ℚ) :
    (((buy_currency ps rates uid c a).result = .ok true ∧
        (buy_currency ps rates uid c a).writes = 1 ∧
        ∃ i q pNew, ps.get? i = some q ∧ q.userId = uid ∧
          (buy_currency ps rates uid c a).portfolios = ps.set i pNew) ∨
      ((buy_currency ps rates uid c a).result ≠ .ok true ∧
        (buy_currency ps rates uid c a).portfolios = ps ∧
        (buy_currency ps rates uid c a).writes = 0)) ∧
    (((sell_currency ps rates uid c a).result = .ok true ∧
        (sell_currency ps rates uid c a).writes = 1 ∧
        ∃ i q pNew, ps.get? i = some q ∧ q.userId = uid ∧
          (sell_currency ps rates uid c a).portfolios = ps.set i pNew) ∨
      ((sell_currency ps rates uid c a).result ≠ .ok true ∧
        (sell_currency ps rates uid c a).portfolios = ps ∧
        (sell_currency ps rates uid c a).writes = 0)) :=
  ⟨buy_writes ps rates uid c a, sell_writes ps rates uid c a⟩

/-- With a non-positive amount, `buy_currency` either returns `False` (an
earlier check failed) or raises the invalid-amount `ValueError`. -/
theorem buy_nonpos_result (ps : List PortfolioM) (rates : RatesData) (uid : ℤ)
    (c : String) (a : ℚ) (ha : a ≤ 0) :
    (buy_currency ps rates uid c a).result = .ok false ∨
      (buy_currency ps rates uid c a).result = .error .invalidAmount := by
  unfold buy_currency
  cases hp : show_portfolio ps uid with
  | none => left; rfl
  | some portfolio =>
    dsimp only
    cases he : lookupRate rates (c ++ "_USD") with
    | none => left; rfl
    | some entry =>
      dsimp only
      cases hw : portfolio.get_wallet "USD" with
      | none => left; rfl
      | some usdWallet =>
        dsimp only
        by_cases hb : usdWallet.balance < a * entry.rate
        · rw [if_pos hb]
          left; rfl
        · rw [if_neg hb]
          cases hwd : usdWallet.withdraw (a * entry.rate) with
          | error e =>
            right
            dsimp only
            rw [WalletM.withdraw_error_covered usdWallet (a * entry.rate) e hwd hb]
          | ok usdWallet2 =>
            dsimp only
            by_cases hcw : ((portfolio.setWallet "USD" usdWallet2).get_wallet c).isSome
            · rw [if_pos hcw]
              dsimp only
              cases hgw : (portfolio.setWallet "USD" usdWallet2).get_wallet c with
              | none => rw [hgw] at hcw; simp at hcw
              | some target =>
                dsimp only
                rw [WalletM.deposit_nonpos target a ha]
                right; rfl
            · rw [if_neg hcw]
              have hnone : (portfolio.setWallet "USD" usdWallet2).get_wallet c = none :=
                Option.not_isSome_iff_eq_none.mp hcw
              rw [PortfolioM.add_currency_absent _ c hnone]
              dsimp only
              rw [PortfolioM.get_wallet_append_self _ c ⟨c, 0⟩ hnone]
              dsimp only
              rw [WalletM.deposit_nonpos ⟨c, 0⟩ a ha]
              right; rfl

/-- With a non-positive amount, `sell_currency` either returns `False` or
raises the invalid-amount `ValueError` at the withdrawal. -/
theorem sell_nonpos_result (ps : List PortfolioM) (rates : RatesData) (uid : ℤ)
    (c : String) (a : ℚ) (ha : a ≤ 0) :
    (sell_currency ps rates uid c a).result = .ok false ∨
      (sell_currency ps rates uid c a).result = .error .invalidAmount := by
  unfold sell_currency
  cases hp : show_portfolio ps uid with
  | none => left; rfl
  | some portfolio =>
    dsimp only
    cases hw : portfolio.get_wallet c with
    | none => left; rfl
    | some wallet =>
      dsimp only
      by_cases hb : wallet.balance < a
      · rw [if_pos hb]
        left; rfl
      · rw [if_neg hb]
        cases he : lookupRate rates (c ++ "_USD") with
        | none => left; rfl
        | some entry =>
          dsimp only
          rw [WalletM.withdraw_nonpos wallet a ha]
          right; rfl

/-- C9 amended.  For every non-positive amount, Buy and Sell never
succeed and never touch the stored portfolios (zero writes); the failure
is the invalid-amount `ValueError` when the preceding checks (portfolio,
rate, source wallet and balance) pass, and the bare `False` return when
an earlier check fails first. -/
theorem trade_nonpositive_amount (ps : List PortfolioM) (rates : RatesData) (uid : ℤ)
    (c : String) (a : ℚ) (ha : a ≤ 0) :
    (((buy_currency ps rates uid c a).result = .ok false ∨
        (buy_currency ps rates uid c a).result = .error .invalidAmount) ∧
       (buy_currency ps rates uid c a).portfolios = ps ∧
       (buy_currency ps rates uid c a).writes = 0) ∧
    (((sell_currency ps rates uid c a).result = .ok false ∨
        (sell_currency ps rates uid c a).result = .error .invalidAmount) ∧
       (sell_currency ps rates uid c a).portfolios = ps ∧
       (sell_currency ps rates uid c a).writes = 0) := by
  have hbuy := buy_nonpos_result ps rates uid c a ha
  have hsell := sell_nonpos_result ps rates uid c a ha
  have hbuyne : (buy_currency ps rates uid c a).result ≠ .ok true := by
    rcases hbuy with h | h <;> simp [h]
  have hsellne : (sell_currency ps rates uid c a).result ≠ .ok true := by
    rcases hsell with h | h <;> simp [h]
  rcases buy_writes ps rates uid c a with ⟨h1, _⟩ | ⟨_, h2, h3⟩
  · exact absurd h1 hbuyne
  · rcases sell_writes ps rates uid c a with ⟨h4, _⟩ | ⟨_, h5, h6⟩
    · exact absurd h4 hsellne
    · exact ⟨⟨hbuy, h2, h3⟩, hsell, h5, h6⟩

/-- C9 counterexample.  With no stored portfolio for the user, `Buy` with
the negative amount `-1` merely returns `False` — the generic failure
return — and does not fail with an InvalidAmount-class error, so the
claim's required error class is not produced on every such call. -/
theorem trade_nonpositive_cex :
    (buy_currency [] [] 1 "BTC" (-1)).result = .ok false ∧
      (buy_currency [] [] 1 "BTC" (-1)).result ≠ .error .invalidAmount := by
  constructor
  · rfl
  · intro h
    have h0 : (buy_currency [] [] 1 "BTC" (-1)).result = .ok false := rfl
    rw [h0] at h
    exact absurd h (by simp)

/-- Witness for C9's amended theorem at a concrete call. -/
theorem trade_nonpositive_amount_witness :
    (((buy_currency [] [] 1 "BTC" (-1)).result = .ok false ∨
        (buy_currency [] [] 1 "BTC" (-1)).result = .error .invalidAmount) ∧
       (buy_currency [] [] 1 "BTC" (-1)).portfolios = [] ∧
       (buy_currency [] [] 1 "BTC" (-1)).writes = 0) ∧
    (((sell_currency [] [] 1 "BTC" (-1)).result = .ok false ∨
        (sell_currency [] [] 1 "BTC" (-1)).result = .error .invalidAmount) ∧
       (sell_currency [] [] 1 "BTC" (-1)).portfolios = [] ∧
       (sell_currency [] [] 1 "BTC" (-1)).writes = 0) :=
  trade_nonpositive_amount [] [] 1 "BTC" (-1) (by norm_num)

/-- Exact-arithmetic idealization of the trade deltas, for a currency
other than USD: over exact rationals, a successful Buy moves the USD
wallet down by exactly `amount * rate` (the cached rate under
`{currency}_USD`) and the currency wallet up by exactly `amount`, a
zero-balance wallet being created first when absent; symmetrically for
Sell.  This lemma describes the idealized arithmetic only: the program
stores balances as binary64 floats, which round every assignment, so the
exact deltas fail on the program at representable inputs (the rounding is
certified at concrete inputs elsewhere in this file), and for
`currency = "USD"` both legs alias one wallet. -/
theorem buy_sell_exact_changes
    (ps : List PortfolioM) (rates : RatesData) (uid : ℤ) (c : String) (a : ℚ)
    (p : PortfolioM) (e : RateEntry)
    (hne : c ≠ "USD")
    (hp : show_portfolio ps uid = some p)
    (he : lookupRate rates (c ++ "_USD") = some e) :
    ((buy_currency ps rates uid c a).result = .ok true →
       ∃ p2, show_portfolio (buy_currency ps rates uid c a).portfolios uid = some p2 ∧
         p2.bal "USD" = p.bal "USD" - a * e.rate ∧
         p2.bal c = p.bal c + a) ∧
    ((sell_currency ps rates uid c a).result = .ok true →
       ∃ p2, show_portfolio (sell_currency ps rates uid c a).portfolios uid = some p2 ∧
         p2.bal c = p.bal c - a ∧
         p2.bal "USD" = p.bal "USD" + a * e.rate) := by
  constructor
  · intro hsucc
    unfold buy_currency at hsucc ⊢
    rw [hp] at hsucc ⊢
    dsimp only at hsucc ⊢
    rw [he] at hsucc ⊢
    dsimp only at hsucc ⊢
    cases hw : p.get_wallet "USD" with
    | none =>
      rw [hw] at hsucc
      simp at hsucc
    | some usdWallet =>
      rw [hw] at hsucc
      dsimp only at hsucc ⊢
      by_cases hb : usdWallet.balance < a * e.rate
      · rw [if_pos hb] at hsucc
        simp at hsucc
      · rw [if_neg hb] at hsucc ⊢
        cases hwd : usdWallet.withdraw (a * e.rate) with
        | error e2 =>
          rw [hwd] at hsucc
          simp at hsucc
        | ok u2 =>
          rw [hwd] at hsucc
          dsimp only at hsucc ⊢
          obtain ⟨hcpos, hcle, hu2⟩ := WalletM.withdraw_ok usdWallet (a * e.rate) u2 hwd
          by_cases hcw : ((p.setWallet "USD" u2).get_wallet c).isSome
          · rw [if_pos hcw] at hsucc ⊢
            dsimp only at hsucc ⊢
            cases hgw : (p.setWallet "USD" u2).get_wallet c with
            | none =>
              rw [hgw] at hcw
              simp at hcw
            | some target =>
              rw [hgw] at hsucc
              dsimp only at hsucc ⊢
              cases hdep : target.deposit a with
              | error e2 =>
                rw [hdep] at hsucc
                simp at hsucc
              | ok target2 =>
                rw [hdep] at hsucc
                dsimp only at hsucc ⊢
                obtain ⟨hapos, ht2⟩ := WalletM.deposit_ok target a target2 hdep
                obtain ⟨i, h1, h2, h3⟩ := updateFirst_of_found ps uid p
                  ((p.setWallet "USD" u2).setWallet c target2) hp
                refine ⟨(p.setWallet "USD" u2).setWallet c target2, ?_, ?_, ?_⟩
                · dsimp only
                  rw [h2]
                  exact h3 (show_portfolio_userId ps uid p hp)
                · rw [PortfolioM.bal_set_ne _ c "USD" target2 (fun hh => hne hh.symm),
                    PortfolioM.bal_set_self p "USD" usdWallet u2 hw, hu2,
                    PortfolioM.bal_of_get p "USD" usdWallet hw]
                · have hpc : p.get_wallet c = some target := by
                    rw [← PortfolioM.get_wallet_set_ne p "USD" c u2 hne]
                    exact hgw
                  rw [PortfolioM.bal_set_self (p.setWallet "USD" u2) c target target2 hgw,
                    ht2, PortfolioM.bal_of_get p c target hpc]
          · rw [if_neg hcw] at hsucc ⊢
            have hnone : (p.setWallet "USD" u2).get_wallet c = none :=
              Option.not_isSome_iff_eq_none.mp hcw
            rw [PortfolioM.add_currency_absent _ c hnone] at hsucc ⊢
            dsimp only at hsucc ⊢
            rw [PortfolioM.get_wallet_append_self _ c ⟨c, 0⟩ hnone] at hsucc ⊢
            dsimp only at hsucc ⊢
            cases hdep : WalletM.deposit ⟨c, 0⟩ a with
            | error e2 =>
              rw [hdep] at hsucc
              simp at hsucc
            | ok target2 =>
              rw [hdep] at hsucc
              dsimp only at hsucc ⊢
              obtain ⟨hapos, ht2⟩ := WalletM.deposit_ok ⟨c, 0⟩ a target2 hdep
              obtain ⟨i, h1, h2, h3⟩ := updateFirst_of_found ps uid p
                (({ p.setWallet "USD" u2 with
                    wallets := (p.setWallet "USD" u2).wallets ++ [(c, ⟨c, 0⟩)] }
                   : PortfolioM).setWallet c target2) hp
              refine ⟨({ p.setWallet "USD" u2 with
                  wallets := (p.setWallet "USD" u2).wallets ++ [(c, ⟨c, 0⟩)] }
                 : PortfolioM).setWallet c target2, ?_, ?_, ?_⟩
              · dsimp only
                rw [h2]
                exact h3 (show_portfolio_userId ps uid p hp)
              · rw [PortfolioM.bal_set_ne _ c "USD" target2 (fun hh => hne hh.symm),
                  PortfolioM.bal_append_ne (p.setWallet "USD" u2) c "USD" ⟨c, 0⟩
                    (fun hh => hne hh.symm),
                  PortfolioM.bal_set_self p "USD" usdWallet u2 hw, hu2,
                  PortfolioM.bal_of_get p "USD" usdWallet hw]
              · have hpc : p.get_wallet c = none := by
                  rw [← PortfolioM.get_wallet_set_ne p "USD" c u2 hne]
                  exact hnone
                rw [PortfolioM.bal_set_self _ c ⟨c, 0⟩ target2
                    (PortfolioM.get_wallet_append_self _ c ⟨c, 0⟩ hnone), ht2,
                  PortfolioM.bal_of_none p c hpc]
  · intro hsucc
    unfold sell_currency at hsucc ⊢
    rw [hp] at hsucc ⊢
    dsimp only at hsucc ⊢
    cases hw : p.get_wallet c with
    | none =>
      rw [hw] at hsucc
      simp at hsucc
    | some wallet =>
      rw [hw] at hsucc
      dsimp only at hsucc ⊢
      by_cases hb : wallet.balance < a
      · rw [if_pos hb] at hsucc
        simp at hsucc
      · rw [if_neg hb] at hsucc ⊢
        rw [he] at hsucc ⊢
        dsimp only at hsucc ⊢
        cases hwd : wallet.withdraw a with
        | error e2 =>
          rw [hwd] at hsucc
          simp at hsucc
        | ok wallet2 =>
          rw [hwd] at hsucc
          dsimp only at hsucc ⊢
          obtain ⟨hapos, hale, hw2⟩ := WalletM.withdraw_ok wallet a wallet2 hwd
          cases hgw : (p.setWallet c wallet2).get_wallet "USD" with
          | some usdWallet =>
            rw [hgw] at hsucc
            dsimp only at hsucc ⊢
            cases hdep : usdWallet.deposit (a * e.rate) with
            | error e2 =>
              rw [hdep] at hsucc
              simp at hsucc
            | ok usdW2 =>
              rw [hdep] at hsucc
              dsimp only at hsucc ⊢
              obtain ⟨hrpos, hup2⟩ := WalletM.deposit_ok usdWallet (a * e.rate) usdW2 hdep
              obtain ⟨i, h1, h2, h3⟩ := updateFirst_of_found ps uid p
                ((p.setWallet c wallet2).setWallet "USD" usdW2) hp
              refine ⟨(p.setWallet c wallet2).setWallet "USD" usdW2, ?_, ?_, ?_⟩
              · dsimp only
                rw [h2]
                exact h3 (show_portfolio_userId ps uid p hp)
              · rw [PortfolioM.bal_set_ne _ "USD" c usdW2 hne,
                  PortfolioM.bal_set_self p c wallet wallet2 hw, hw2,
                  PortfolioM.bal_of_get p c wallet hw]
              · have hpUSD : p.get_wallet "USD" = some usdWallet := by
                  rw [← PortfolioM.get_wallet_set_ne p c "USD" wallet2
                    (fun hh => hne hh.symm)]
                  exact hgw
                rw [PortfolioM.bal_set_self (p.setWallet c wallet2) "USD" usdWallet usdW2 hgw,
                  hup2, PortfolioM.bal_of_get p "USD" usdWallet hpUSD]
          | none =>
            rw [hgw] at hsucc
            dsimp only at hsucc ⊢
            rw [PortfolioM.add_currency_absent _ "USD" hgw] at hsucc ⊢
            dsimp only at hsucc ⊢
            rw [PortfolioM.get_wallet_append_self _ "USD" ⟨"USD", 0⟩ hgw] at hsucc ⊢
            dsimp only at hsucc ⊢
            cases hdep : WalletM.deposit ⟨"USD", 0⟩ (a * e.rate) with
            | error e2 =>
              rw [hdep] at hsucc
              simp at hsucc
            | ok usdW2 =>
              rw [hdep] at hsucc
              dsimp only at hsucc ⊢
              obtain ⟨hrpos, hup2⟩ := WalletM.deposit_ok ⟨"USD", 0⟩ (a * e.rate) usdW2 hdep
              obtain ⟨i, h1, h2, h3⟩ := updateFirst_of_found ps uid p
                (({ p.setWallet c wallet2 with
                    wallets := (p.setWallet c wallet2).wallets ++ [("USD", ⟨"USD", 0⟩)] }
                   : PortfolioM).setWallet "USD" usdW2) hp
              refine ⟨({ p.setWallet c wallet2 with
                  wallets := (p.setWallet c wallet2).wallets ++ [("USD", ⟨"USD", 0⟩)] }
                 : PortfolioM).setWallet "USD" usdW2, ?_, ?_, ?_⟩
              · dsimp only
                rw [h2]
                exact h3 (show_portfolio_userId ps uid p hp)
              · rw [PortfolioM.bal_set_ne _ "USD" c usdW2 hne,
                  PortfolioM.bal_append_ne (p.setWallet c wallet2) "USD" c ⟨"USD", 0⟩ hne,
                  PortfolioM.bal_set_self p c wallet wallet2 hw, hw2,
                  PortfolioM.bal_of_get p c wallet hw]
              · have hpUSD : p.get_wallet "USD" = none := by
                  rw [← PortfolioM.get_wallet_set_ne p c "USD" wallet2
                    (fun hh => hne hh.symm)]
                  exact hgw
                rw [PortfolioM.bal_set_self _ "USD" ⟨"USD", 0⟩ usdW2
                    (PortfolioM.get_wallet_append_self _ "USD" ⟨"USD", 0⟩ hgw), hup2,
                  PortfolioM.bal_of_none p "USD" hpUSD]

/-- C1.  Evaluation of Buy at the failing inputs.  First: with a USD
balance of `10^16` and cached `BTC_USD` rate `1/2`, `Buy("BTC", 1)`
succeeds and the exact post-trade USD balance is `10^16 - 1/2`; binary64
(Python float) stores balances of this magnitude on the grid of spacing 2
(certified by `2^52 ≤ (10^16 - 1/2)/2 < 2^53`), so the program's stored
balance rounds back to exactly `10^16` — the USD wallet does not decrease
by `amount · rate = 1/2`; it does not decrease at all, refuting "decreases
by exactly amount·rate".  Second, independently: `Buy("USD", 2)` against a
stored `USD_USD` rate `1/2` debits and credits the same wallet, moving its
balance from 10 to 11 rather than decreasing it by `2 · (1/2) = 1`. -/
theorem buy_exact_delta_float_bug :
    ((buy_currency [⟨1, [("USD", ⟨"USD", 10000000000000000⟩)]⟩]
        [("BTC_USD", ⟨1 / 2, some 0⟩)] 1 "BTC" 1).result = .ok true ∧
      show_portfolio (buy_currency [⟨1, [("USD", ⟨"USD", 10000000000000000⟩)]⟩]
          [("BTC_USD", ⟨1 / 2, some 0⟩)] 1 "BTC" 1).portfolios 1
        = some ⟨1, [("USD", ⟨"USD", 10000000000000000 - 1 / 2⟩), ("BTC", ⟨"BTC", 1⟩)]⟩ ∧
      (2 ^ 52 : ℚ) ≤ (10000000000000000 - 1 / 2) / 2 ∧
      ((10000000000000000 - 1 / 2) / 2 : ℚ) < 2 ^ 53 ∧
      roundToGrid 2 (10000000000000000 - 1 / 2) = 10000000000000000 ∧
      ((10000000000000000 : ℚ) - 1 / 2 ≠ 10000000000000000)) ∧
    ((buy_currency [⟨1, [("USD", ⟨"USD", 10⟩)]⟩] [("USD_USD", ⟨1 / 2, some 0⟩)]
        1 "USD" 2).result = .ok true ∧
      show_portfolio (buy_currency [⟨1, [("USD", ⟨"USD", 10⟩)]⟩]
          [("USD_USD", ⟨1 / 2, some 0⟩)] 1 "USD" 2).portfolios 1
        = some ⟨1, [("USD", ⟨"USD", 11⟩)]⟩ ∧
      (11 : ℚ) ≠ 10 - 2 * (1 / 2)) := by
  constructor
  · have hbuy : buy_currency [⟨1, [("USD", ⟨"USD", 10000000000000000⟩)]⟩]
        [("BTC_USD", ⟨1 / 2, some 0⟩)] 1 "BTC" 1
        = ⟨.ok true,
            [⟨1, [("USD", ⟨"USD", 10000000000000000 - 1 / 2⟩), ("BTC", ⟨"BTC", 1⟩)]⟩],
            [("BTC_USD", ⟨1 / 2, some 0⟩)], 1⟩ := by
      norm_num [buy_currency, show_portfolio, lookupRate, PortfolioM.get_wallet, findWallet,
        WalletM.withdraw, WalletM.deposit, validateBalance, PortfolioM.setWallet,
        setWalletList, PortfolioM.add_currency, updateFirst,
        (show ("BTC" ++ "_USD" : String) = "BTC_USD" from rfl),
        (show ¬("USD" = "BTC") from by decide), (show ¬("BTC" = "USD") from by decide)]
    refine ⟨by rw [hbuy], ?_, by norm_num, by norm_num, ?_, by norm_num⟩
    · rw [hbuy]
      norm_num [show_portfolio]
    · have h4 : ((10000000000000000 : ℚ) - 1 / 2) / 2 + 1 / 2 = 20000000000000001 / 4 := by
        norm_num
      rw [roundToGrid, round_eq, h4]
      have hfl : ⌊(20000000000000001 : ℚ) / 4⌋ = 5000000000000000 := by
        rw [Int.floor_eq_iff]
        constructor <;> norm_num
      rw [hfl]
      norm_num
  · have hbuy : buy_currency [⟨1, [("USD", ⟨"USD", 10⟩)]⟩] [("USD_USD", ⟨1 / 2, some 0⟩)]
        1 "USD" 2
        = ⟨.ok true, [⟨1, [("USD", ⟨"USD", 11⟩)]⟩], [("USD_USD", ⟨1 / 2, some 0⟩)], 1⟩ := by
      norm_num [buy_currency, show_portfolio, lookupRate, PortfolioM.get_wallet, findWallet,
        WalletM.withdraw, WalletM.deposit, validateBalance, PortfolioM.setWallet,
        setWalletList, PortfolioM.add_currency, updateFirst,
        (show ("USD" ++ "_USD" : String) = "USD_USD" from rfl)]
    refine ⟨by rw [hbuy], ?_, by norm_num⟩
    rw [hbuy]
    norm_num [show_portfolio]

/-- `buy_currency` never writes the rates dictionary. -/
theorem buy_rates_unchanged (ps : List PortfolioM) (rates : RatesData) (uid : ℤ)
    (c : String) (a : ℚ) : (buy_currency ps rates uid c a).rates = rates := by
  unfold buy_currency
  cases hp : show_portfolio ps uid with
  | none => rfl
  | some portfolio =>
    dsimp only
    cases he : lookupRate rates (c ++ "_USD") with
    | none => rfl
    | some entry =>
      dsimp only
      cases hw : portfolio.get_wallet "USD" with
      | none => rfl
      | some usdWallet =>
        dsimp only
        by_cases hb : usdWallet.balance < a * entry.rate
        · rw [if_pos hb]
        · rw [if_neg hb]
          cases hwd : usdWallet.withdraw (a * entry.rate) with
          | error e => rfl
          | ok u2 =>
            dsimp only
            by_cases hcw : ((portfolio.setWallet "USD" u2).get_wallet c).isSome
            · rw [if_pos hcw]
              dsimp only
              cases hgw : (portfolio.setWallet "USD" u2).get_wallet c with
              | none => rfl
              | some target =>
                dsimp only
                cases hdep : target.deposit a <;> rfl
            · rw [if_neg hcw]
              cases hadd : (portfolio.setWallet "USD" u2).add_currency c with
              | error e => rfl
              | ok p3 =>
                dsimp only
                cases hgw : p3.get_wallet c with
                | none => rfl
                | some target =>
                  dsimp only
                  cases hdep : target.deposit a <;> rfl

/-- `sell_currency` never writes the rates dictionary. -/
theorem sell_rates_unchanged (ps : List PortfolioM) (rates : RatesData) (uid : ℤ)
    (c : String) (a : ℚ) : (sell_currency ps rates uid c a).rates = rates := by
  unfold sell_currency
  cases hp : show_portfolio ps uid with
  | none => rfl
  | some portfolio =>
    dsimp only
    cases hw : portfolio.get_wallet c with
    | none => rfl
    | some wallet =>
      dsimp only
      by_cases hb : wallet.balance < a
      · rw [if_pos hb]
      · rw [if_neg hb]
        cases he : lookupRate rates (c ++ "_USD") with
        | none => rfl
        | some entry =>
          dsimp only
          cases hwd : wallet.withdraw a with
          | error e => rfl
          | ok wallet2 =>
            dsimp only
            cases hgw : (portfolio.setWallet c wallet2).get_wallet "USD" with
            | some usdWallet =>
              dsimp only
              cases hdep : usdWallet.deposit (a * entry.rate) <;> rfl
            | none =>
              dsimp only
              cases hadd : (portfolio.setWallet c wallet2).add_currency "USD" with
              | error e => rfl
              | ok p3 =>
                dsimp only
                cases hgw2 : p3.get_wallet "USD" with
                | none => rfl
                | some usdWallet =>
                  dsimp only
                  cases hdep : usdWallet.deposit (a * entry.rate) <;> rfl

/-- The observable effect of `buy_currency` depends on the cached entry
for `{currency}_USD` only through its `rate` value. -/
theorem buy_rate_only (ps : List PortfolioM) (uid : ℤ) (c : String) (a : ℚ)
    (rates rates2 : RatesData)
    (h : (lookupRate rates (c ++ "_USD")).map (fun e => e.rate)
        = (lookupRate rates2 (c ++ "_USD")).map (fun e => e.rate)) :
    buy_currency ps rates2 uid c a
      = { buy_currency ps rates uid c a with rates := rates2 } := by
  unfold buy_currency
  cases h1 : lookupRate rates (c ++ "_USD") with
  | none =>
    rw [h1] at h
    cases h2 : lookupRate rates2 (c ++ "_USD") with
    | none =>
      cases hp : show_portfolio ps uid with
      | none => rfl
      | some portfolio => rfl
    | some e2 =>
      rw [h2] at h
      simp at h
  | some e1 =>
    rw [h1] at h
    cases h2 : lookupRate rates2 (c ++ "_USD") with
    | none =>
      rw [h2] at h
      simp at h
    | some e2 =>
      rw [h2] at h
      simp only [Option.map_some', Option.some.injEq] at h
      dsimp only
      rw [← h]
      cases hp : show_portfolio ps uid with
      | none => rfl
      | some portfolio =>
        dsimp only
        cases hw : portfolio.get_wallet "USD" with
        | none => rfl
        | some usdWallet =>
          dsimp only
          split_ifs with hb
          · rfl
          · cases hwd : usdWallet.withdraw (a * e1.rate) with
            | error e3 => rfl
            | ok u2 =>
              dsimp only
              split_ifs with hcw
              · dsimp only
                cases hgw : (portfolio.setWallet "USD" u2).get_wallet c with
                | none => rfl
                | some target =>
                  dsimp only
                  cases hdep : target.deposit a <;> rfl
              · cases hadd : (portfolio.setWallet "USD" u2).add_currency c with
                | error e3 => rfl
                | ok p3 =>
                  dsimp only
                  cases hgw : p3.get_wallet c with
                  | none => rfl
                  | some target =>
                    dsimp only
                    cases hdep : target.deposit a <;> rfl

/-- The observable effect of `sell_currency` depends on the cached entry
for `{currency}_USD` only through its `rate` value. -/
theorem sell_rate_only (ps : List PortfolioM) (uid : ℤ) (c : String) (a : ℚ)
    (rates rates2 : RatesData)
    (h : (lookupRate rates (c ++ "_USD")).map (fun e => e.rate)
        = (lookupRate rates2 (c ++ "_USD")).map (fun e => e.rate)) :
    sell_currency ps rates2 uid c a
      = { sell_currency ps rates uid c a with rates := rates2 } := by
  unfold sell_currency
  cases hp : show_portfolio ps uid with
  | none => rfl
  | some portfolio =>
    dsimp only
    cases hw : portfolio.get_wallet c with
    | none => rfl
    | some wallet =>
      dsimp only
      split_ifs with hb
      · rfl
      · cases h1 : lookupRate rates (c ++ "_USD") with
        | none =>
          rw [h1] at h
          cases h2 : lookupRate rates2 (c ++ "_USD") with
          | none => rfl
          | some e2 =>
            rw [h2] at h
            simp at h
        | some e1 =>
          rw [h1] at h
          cases h2 : lookupRate rates2 (c ++ "_USD") with
          | none =>
            rw [h2] at h
            simp at h
          | some e2 =>
            rw [h2] at h
            simp only [Option.map_some', Option.some.injEq] at h
            dsimp only
            rw [← h]
            cases hwd : wallet.withdraw a with
            | error e3 => rfl
            | ok wallet2 =>
              dsimp only
              cases hgw : (portfolio.setWallet c wallet2).get_wallet "USD" with
              | some usdWallet =>
                dsimp only
                cases hdep : usdWallet.deposit (a * e1.rate) <;> rfl
              | none =>
                dsimp only
                cases hadd : (portfolio.setWallet c wallet2).add_currency "USD" with
                | error e3 => rfl
                | ok p3 =>
                  dsimp only
                  cases hgw2 : p3.get_wallet "USD" with
                  | none => rfl
                  | some usdWallet =>
                    dsimp only
                    cases hdep : usdWallet.deposit (a * e1.rate) <;> rfl

/-- With no cached entry under `{currency}_USD`, `buy_currency` returns
`False`. -/
theorem buy_no_rate (ps : List PortfolioM) (rates : RatesData) (uid : ℤ)
    (c : String) (a : ℚ) (h : lookupRate rates (c ++ "_USD") = none) :
    (buy_currency ps rates uid c a).result = .ok false := by
  unfold buy_currency
  cases hp : show_portfolio ps uid with
  | none => rfl
  | some portfolio =>
    dsimp only
    rw [h]

/-- With no cached entry under `{currency}_USD`, `sell_currency` returns
`False`. -/
theorem sell_no_rate (ps : List PortfolioM) (rates : RatesData) (uid : ℤ)
    (c : String) (a : ℚ) (h : lookupRate rates (c ++ "_USD") = none) :
    (sell_currency ps rates uid c a).result = .ok false := by
  unfold sell_currency
  cases hp : show_portfolio ps uid with
  | none => rfl
  | some portfolio =>
    dsimp only
    cases hw : portfolio.get_wallet c with
    | none => rfl
    | some wallet =>
      dsimp only
      by_cases hb : wallet.balance < a
      · rw [if_pos hb]
      · rw [if_neg hb, h]

/-- C10.  The trade paths price a trade by exactly the cached entry under
`{currency}_USD`, regardless of that entry's age: they never write the
rates dictionary, their observable effect depends on the entry only
through its rate (in particular not on `updatedAt`, so no freshness check
and no call to the external source is involved), a trade fails with
`False` when no cached entry exists for the pair, and a concrete buy
succeeds for every timestamp of the cached entry, arbitrarily stale or
even unparseable. -/
theorem trade_uses_cached_rate (ps : List PortfolioM) (rates rates2 : RatesData)
    (uid : ℤ) (c : String) (a : ℚ) (t : Option ℤ) :
    ((buy_currency ps rates uid c a).rates = rates ∧
      (sell_currency ps rates uid c a).rates = rates) ∧
    ((lookupRate rates (c ++ "_USD")).map (fun e => e.rate)
        = (lookupRate rates2 (c ++ "_USD")).map (fun e => e.rate) →
      buy_currency ps rates2 uid c a
          = { buy_currency ps rates uid c a with rates := rates2 } ∧
        sell_currency ps rates2 uid c a
          = { sell_currency ps rates uid c a with rates := rates2 }) ∧
    (lookupRate rates (c ++ "_USD") = none →
      (buy_currency ps rates uid c a).result = .ok false ∧
      (sell_currency ps rates uid c a).result = .ok false) ∧
    (buy_currency [⟨1, [("USD", ⟨"USD", 1000⟩)]⟩] [("BTC_USD", ⟨100, t⟩)]
        1 "BTC" 2).result = .ok true :=
  ⟨⟨buy_rates_unchanged ps rates uid c a, sell_rates_unchanged ps rates uid c a⟩,
   fun h => ⟨buy_rate_only ps uid c a rates rates2 h, sell_rate_only ps uid c a rates rates2 h⟩,
   fun h => ⟨buy_no_rate ps rates uid c a h, sell_no_rate ps rates uid c a h⟩,
   by norm_num [buy_currency, show_portfolio, lookupRate, PortfolioM.get_wallet,
     findWallet, WalletM.withdraw, WalletM.deposit, validateBalance, PortfolioM.setWallet,
     setWalletList, PortfolioM.add_currency, updateFirst,
     (show ("BTC" ++ "_USD" : String) = "BTC_USD" from rfl),
     (show ¬("USD" = "BTC") from by decide), (show ¬("BTC" = "USD") from by decide)]⟩

/-- Witness for C10 at concrete caches: two caches differing only in the
entry's timestamp produce the same trade outcome, and an empty cache makes
both trades return `False`. -/
theorem trade_uses_cached_rate_witness :
    (buy_currency [⟨1, [("USD", ⟨"USD", 1000⟩)]⟩] [("BTC_USD", ⟨100, some 999999999999⟩)]
          1 "BTC" 2
        = { buy_currency [⟨1, [("USD", ⟨"USD", 1000⟩)]⟩] [("BTC_USD", ⟨100, some 0⟩)]
            1 "BTC" 2 with rates := [("BTC_USD", ⟨100, some 999999999999⟩)] } ∧
      sell_currency [⟨1, [("USD", ⟨"USD", 1000⟩)]⟩] [("BTC_USD", ⟨100, some 999999999999⟩)]
          1 "BTC" 2
        = { sell_currency [⟨1, [("USD", ⟨"USD", 1000⟩)]⟩] [("BTC_USD", ⟨100, some 0⟩)]
            1 "BTC" 2 with rates := [("BTC_USD", ⟨100, some 999999999999⟩)] }) ∧
    ((buy_currency [⟨1, [("USD", ⟨"USD", 1000⟩)]⟩] [] 1 "BTC" 2).result = .ok false ∧
      (sell_currency [⟨1, [("USD", ⟨"USD", 1000⟩)]⟩] [] 1 "BTC" 2).result = .ok false) :=
  ⟨(trade_uses_cached_rate [⟨1, [("USD", ⟨"USD", 1000⟩)]⟩] [("BTC_USD", ⟨100, some 0⟩)]
      [("BTC_USD", ⟨100, some 999999999999⟩)] 1 "BTC" 2 none).2.1 rfl,
   (trade_uses_cached_rate [⟨1, [("USD", ⟨"USD", 1000⟩)]⟩] [] [] 1 "BTC" 2 none).2.2.1 rfl⟩
